import Mathlib

/-!
Verification of the helper utilities in `FeedBack-Prize-3/feedback_custom_funtions.py`.

The file shallowly embeds the repository's four units — the dataset adapter
(`FeedBackDataset`), the loss functions (`RMSELoss`, `loss_fn`), the optimizer
parameter grouping (`get_optimizer_grouped_parameters`, `optimizer_setup`'s
step arithmetic) and the evaluation metric (`compute_metrics`) — and proves the
specification's claims about them.

Modelling conventions:
  * numeric tensors and arrays are lists of rationals; square roots land in `ℝ`;
  * Python's substring test `needle in hay` is `strContains`;
  * a PyTorch parameter tensor is identified by a `Param` (a natural number),
    and a module's `named_parameters()` is a list of name/parameter pairs;
  * fallible Python code (indexing that can raise, a variable that can be
    unbound) returns `Option`/`Except`.
-/

namespace FeedBackPrize

/-! ### Python's substring test (`needle in hay`) -/

/-- Does the character list `needle` occur at the start of `hay`? -/
def listStarts : List Char → List Char → Bool
  | [], _ => true
  | _ :: _, [] => false
  | a :: as, b :: bs => a == b && listStarts as bs

/-- Does the character list `needle` occur anywhere inside `hay`?  This is
Python's `needle in hay` on strings, spelled out on the character lists. -/
def listContains (needle : List Char) : List Char → Bool
  | [] => listStarts needle []
  | b :: bs => listStarts needle (b :: bs) || listContains needle bs

/-- Python's `needle in hay` substring test on strings. -/
def strContains (needle hay : String) : Bool :=
  listContains needle.toList hay.toList

/-! ### Dataset adapter (`FeedBackDataset`) -/

/-- The part of `tokenizer.encode_plus` output the dataset adapter reads. -/
structure TokenizerOutput where
  input_ids : List ℕ
  attention_mask : List ℕ

/-- One row of the input dataframe: the essay text plus the numeric columns,
read off by column name. -/
structure Row where
  full_text : String
  col : String → ℚ

/-- The `FeedBackDataset` wrapper: the dataframe, the tokenizer (abstracted as
a function from the text and the maximum length to its encoding), the maximum
length, the configured target column names and the training-mode flag. -/
structure FeedBackDataset where
  df : List Row
  tokenizer : String → ℕ → TokenizerOutput
  max_len : ℕ
  target_label : List String
  train_mode : Bool

/-- `self.texts = df['full_text'].values`. -/
def FeedBackDataset.texts (d : FeedBackDataset) : List String :=
  d.df.map Row.full_text

/-- `self.targets = df[target_label].values`: per row, the values of the
configured target columns, in the configured order. -/
def FeedBackDataset.targets (d : FeedBackDataset) : List (List ℚ) :=
  d.df.map fun r => d.target_label.map r.col

/-- The dictionary returned by `FeedBackDataset.__getitem__`; the `target`
entry is present (`some`) only in training mode. -/
structure Item where
  input_ids : List ℕ
  attention_mask : List ℕ
  target : Option (List ℚ)

/-- `FeedBackDataset.__getitem__`: tokenize the row's text; in training mode
also attach the row's target vector. -/
def FeedBackDataset.getItem (d : FeedBackDataset) (index : ℕ) : Item :=
  let text := d.texts.getD index ""
  let inputs := d.tokenizer text d.max_len
  if d.train_mode then
    ⟨inputs.input_ids, inputs.attention_mask, some (d.targets.getD index [])⟩
  else
    ⟨inputs.input_ids, inputs.attention_mask, none⟩

/-! ### Loss functions (`RMSELoss`, `loss_fn`) -/

/-- A PyTorch result that is either a scalar (after `sum`/`mean` reduction) or
an unreduced elementwise tensor. -/
inductive TensorR where
  | scalar (x : ℝ)
  | tensor (xs : List ℝ)

/-- A value of `TensorR` is nonnegative when the scalar, or every entry of the
tensor, is nonnegative. -/
def TensorR.Nonneg : TensorR → Prop
  | .scalar x => 0 ≤ x
  | .tensor xs => ∀ x ∈ xs, 0 ≤ x

/-- `nn.MSELoss(reduction='none')`: the elementwise squared errors. -/
def squaredErrors (predictions targets : List ℚ) : List ℚ :=
  List.zipWith (fun p t => (p - t) ^ 2) predictions targets

/-- The default epsilon of `RMSELoss`, `1e-9`. -/
def eps0 : ℚ := 1 / 1000000000

/-- `torch.sqrt(self.mse(predictions, targets) + self.eps)`: the elementwise
root of squared error plus epsilon. -/
noncomputable def rmseElems (eps : ℚ) (predictions targets : List ℚ) : List ℝ :=
  (squaredErrors predictions targets).map fun x : ℚ => Real.sqrt ((x : ℝ) + (eps : ℝ))

/-- `RMSELoss.forward`: the elementwise `sqrt(mse + eps)` tensor, reduced
according to the configured `reduction` string; an unrecognized reduction
falls through every branch and the unreduced tensor is returned. -/
noncomputable def rmseForward (reduction : String) (eps : ℚ)
    (predictions targets : List ℚ) : TensorR :=
  let loss := rmseElems eps predictions targets
  if reduction = "none" then TensorR.tensor loss
  else if reduction = "sum" then TensorR.scalar loss.sum
  else if reduction = "mean" then TensorR.scalar (loss.sum / loss.length)
  else TensorR.tensor loss

/-- The arithmetic mean of a list of rationals (`0` on the empty list, matching
the convention `x / 0 = 0`). -/
def meanQ (l : List ℚ) : ℚ := l.sum / l.length

/-- One element of `nn.SmoothL1Loss` (beta = 1) applied to a difference. -/
def smoothL1Elem (x : ℚ) : ℚ :=
  if |x| < 1 then (1 / 2) * x ^ 2 else |x| - 1 / 2

/-- A Python-level failure: either an `UnboundLocalError` for a local variable
that was never assigned, or an error deliberately raised with a message that
describes the misconfiguration.  The source never constructs the second form;
it exists so that "fails with a descriptive error" is statable. -/
inductive PyError where
  | unboundLocalError (varName : String)
  | descriptiveError (msg : String)
deriving DecidableEq

/-- Is this error one that carries a description of the misconfiguration? -/
def PyError.isDescriptive : PyError → Bool
  | .descriptiveError _ => true
  | .unboundLocalError _ => false

/-- `loss_fn`: dispatch on the `loss_type` string.  `'mse'` is
`nn.MSELoss()` (mean reduction), `'rmse'` is `RMSELoss()` (default mean
reduction, eps `1e-9`), `'smooth_l1'` is `nn.SmoothL1Loss()` (mean reduction).
Any other string leaves the local `loss_func` unassigned, so the final call
raises `UnboundLocalError`. -/
noncomputable def loss_fn (outputs labels : List ℚ) (loss_type : String) :
    Except PyError ℝ :=
  if loss_type = "mse" then
    Except.ok ((meanQ (squaredErrors outputs labels) : ℚ) : ℝ)
  else if loss_type = "rmse" then
    Except.ok
      (match rmseForward "mean" eps0 outputs labels with
        | TensorR.scalar x => x
        | TensorR.tensor _ => 0)
  else if loss_type = "smooth_l1" then
    Except.ok ((meanQ ((List.zipWith (fun a b => a - b) outputs labels).map smoothL1Elem) : ℚ) : ℝ)
  else
    Except.error (PyError.unboundLocalError "loss_func")

/-! ### Optimizer parameter grouping -/

/-- The identity of one parameter tensor. -/
abbrev Param := ℕ

/-- A transformer regression model, seen through what
`get_optimizer_grouped_parameters` accesses: the task-specific head parameters,
the backbone parameters outside the embeddings and the encoder layers
(`extraParams`), the embedding block's parameters (`model.model.embeddings`)
and each encoder layer's parameters (`model.model.encoder.layer`), all with
their local names. -/
structure HFModel where
  headParams : List (String × Param)
  extraParams : List (String × Param)
  embParams : List (String × Param)
  layerParams : List (List (String × Param))

/-- Prepend a module path to each local parameter name. -/
def withPre (pre : String) (ps : List (String × Param)) : List (String × Param) :=
  ps.map fun np => (pre ++ np.1, np.2)

/-- The full names of the encoder layers' parameters: layer `i` contributes its
parameters under the path `model.encoder.layer.<i>.`. -/
def layersNamed : ℕ → List (List (String × Param)) → List (String × Param)
  | _, [] => []
  | i, ps :: rest =>
      withPre ("model.encoder.layer." ++ (toString i ++ ".")) ps ++ layersNamed (i + 1) rest

/-- `model.named_parameters()`: the head parameters keep their local names; the
backbone parameters are reached through the `model` attribute, so their names
carry the `model.` path (embeddings under `model.embeddings.`, encoder layer
`i` under `model.encoder.layer.<i>.`, the rest directly under `model.`). -/
def namedParameters (m : HFModel) : List (String × Param) :=
  m.headParams ++ withPre "model.embeddings." m.embParams
    ++ layersNamed 0 m.layerParams ++ withPre "model." m.extraParams

/-- One optimizer parameter-group dictionary: the parameters, their weight
decay and their learning rate. -/
structure ParamGroup where
  params : List Param
  weight_decay : ℚ
  lr : ℚ

/-- The `no_decay` name patterns. -/
def noDecayNames : List String := ["bias", "LayerNorm.weight"]

/-- `any(nd in n for nd in no_decay)`. -/
def isNoDecayName (n : String) : Bool :=
  noDecayNames.any fun nd => strContains nd n

/-- The comprehension filter selecting the extra encoder parameters:
`"model" in n and "model.embeddings" not in n and "model.encoder.layer" not in n`. -/
def extraPred (np : String × Param) : Bool :=
  strContains "model" np.1 && !strContains "model.embeddings" np.1
    && !strContains "model.encoder.layer" np.1

/-- The loop at the end of `get_optimizer_grouped_parameters`: for each block
in the (already reversed) traversal list, emit a decay group and a no-decay
group at the current learning rate, then multiply the rate by the decay
factor. -/
def layerLoop (wd decay : ℚ) : ℚ → List (List (String × Param)) → List ParamGroup
  | _, [] => []
  | lr, l :: ls =>
      ⟨(l.filter fun np => !isNoDecayName np.1).map Prod.snd, wd, lr⟩ ::
      ⟨(l.filter fun np => isNoDecayName np.1).map Prod.snd, 0, lr⟩ ::
      layerLoop wd decay (lr * decay) ls

/-- `get_optimizer_grouped_parameters`: the head group (names without
`"model"`), the two groups of backbone parameters outside the embeddings and
encoder layers, then per-block decay/no-decay groups for the embedding block
and every encoder layer, traversed in reversed order with a geometrically
decaying learning rate. -/
def get_optimizer_grouped_parameters (m : HFModel)
    (layerwise_lr decoder_lr layerwise_weight_decay layerwise_lr_decay : ℚ) :
    List ParamGroup :=
  let named := namedParameters m
  let headGroup : ParamGroup :=
    ⟨(named.filter fun np => !strContains "model" np.1).map Prod.snd, 0, decoder_lr⟩
  let extra := named.filter extraPred
  let extraDecay : ParamGroup :=
    ⟨(extra.filter fun np => !isNoDecayName np.1).map Prod.snd, layerwise_weight_decay, layerwise_lr⟩
  let extraNoDecay : ParamGroup :=
    ⟨(extra.filter fun np => isNoDecayName np.1).map Prod.snd, 0, layerwise_lr⟩
  let layers := (m.embParams :: m.layerParams).reverse
  headGroup :: extraDecay :: extraNoDecay ::
    layerLoop layerwise_weight_decay layerwise_lr_decay layerwise_lr layers

/-- All parameters of a list of groups, concatenated in order. -/
def allParams : List ParamGroup → List Param
  | [] => []
  | g :: gs => g.params ++ allParams gs

/-- All parameters of a list of parameter blocks, concatenated in order. -/
def sndAll : List (List (String × Param)) → List Param
  | [] => []
  | l :: ls => l.map Prod.snd ++ sndAll ls

/-- `num_training_steps` in `optimizer_setup`:
`(train_dataset_size * epochs) // (train_batch_size * n_accumulate)`. -/
def num_training_steps (train_dataset_size epochs train_batch_size n_accumulate : ℕ) : ℕ :=
  (train_dataset_size * epochs) / (train_batch_size * n_accumulate)

/-- `num_warmup_steps = 0.1 * num_training_steps` in `optimizer_setup`. -/
def num_warmup_steps (steps : ℕ) : ℚ := (1 / 10 : ℚ) * steps

/-! ### Evaluation metric (`compute_metrics`) -/

/-- The object the evaluation harness hands to `compute_metrics`. -/
structure EvalPrediction where
  predictions : List (List ℚ)
  label_ids : List (List ℚ)

/-- Column `j` of `np.mean((labels - predictions) ** 2, axis=0)`: the mean over
the rows of the squared difference in column `j`. -/
def colMse (labels predictions : List (List ℚ)) (j : ℕ) : ℚ :=
  (((labels.zip predictions).map fun rp => (rp.1.getD j 0 - rp.2.getD j 0) ^ 2).sum)
    / labels.length

/-- `colwise_rmse = np.sqrt(np.mean((labels - predictions) ** 2, axis=0))`: one
entry per column of the labels array. -/
noncomputable def colwiseRmse (labels predictions : List (List ℚ)) : List ℝ :=
  (List.range (labels.head?.getD []).length).map fun j =>
    Real.sqrt ((colMse labels predictions j : ℚ) : ℝ)

/-- The arithmetic mean of a list of reals (`np.mean`). -/
noncomputable def meanR (l : List ℝ) : ℝ := l.sum / l.length

/-- `compute_metrics`: the mean of the column RMSEs plus the first six column
RMSEs under their fixed names, in the dictionary's insertion order.  Indexing
`colwise_rmse[k]` can raise `IndexError`, hence the `Option`. -/
noncomputable def compute_metrics (p : EvalPrediction) : Option (List (String × ℝ)) :=
  let colwise := colwiseRmse p.label_ids p.predictions
  let mean_rmse := meanR colwise
  do
    let c0 ← colwise[0]?
    let c1 ← colwise[1]?
    let c2 ← colwise[2]?
    let c3 ← colwise[3]?
    let c4 ← colwise[4]?
    let c5 ← colwise[5]?
    pure [("mcrmse", mean_rmse), ("cohesion_rmse", c0), ("syntax_rmse", c1),
          ("vocabulary_rmse", c2), ("phraseology_rmse", c3), ("grammar_rmse", c4),
          ("conventions_rmse", c5)]

/-! ### Claim C5: training-step and warmup arithmetic -/

/-- Claim C5: the number of training steps used by `optimizer_setup` equals the
floor of `epochs * dataset_size / (batch_size * accumulation_steps)`, the
warmup length is 10% of that total, and the concrete instance
`dataset_size = 1000, epochs = 3, batch_size = 10, accumulate = 2` gives 150
total steps and 15 warmup steps. -/
theorem optimizer_setup_steps_spec (d e b a : ℕ) :
    num_training_steps d e b a = ⌊((e * d : ℕ) : ℚ) / ((b * a : ℕ) : ℚ)⌋₊
      ∧ num_warmup_steps (num_training_steps d e b a)
          = (num_training_steps d e b a : ℚ) / 10
      ∧ num_training_steps 1000 3 10 2 = 150
      ∧ num_warmup_steps (num_training_steps 1000 3 10 2) = 15 := by
  refine ⟨?_, ?_, by decide, by norm_num [num_warmup_steps, num_training_steps]⟩
  · rw [Nat.floor_div_eq_div]
    simp [num_training_steps, Nat.mul_comm d e]
  · simp [num_warmup_steps]
    ring

/-! ### Claim C2: the RMSE loss -/

/-- Every entry of the elementwise RMSE tensor is nonnegative. -/
theorem rmseElems_nonneg (eps : ℚ) (p t : List ℚ) :
    ∀ x ∈ rmseElems eps p t, 0 ≤ x := by
  intro x hx
  simp only [rmseElems, List.mem_map] at hx
  obtain ⟨a, -, rfl⟩ := hx
  exact Real.sqrt_nonneg _

/-- On identical inputs every elementwise entry is `sqrt eps`. -/
theorem rmseElems_self (eps : ℚ) (p : List ℚ) :
    rmseElems eps p p = p.map fun _ => Real.sqrt ((eps : ℚ) : ℝ) := by
  unfold rmseElems squaredErrors
  rw [List.zipWith_same, List.map_map]
  refine List.map_congr_left fun a _ => ?_
  simp

/-- Claim C2: the RMSE loss is the elementwise `sqrt(squared error + 1e-9)`
reduced by the configured strategy (`mean`, `sum`, or elementwise for
`'none'`); it is nonnegative for every reduction, and on identical nonempty
inputs the default mean reduction returns exactly `sqrt(1e-9)`. -/
theorem RMSELoss_spec (p t : List ℚ) (_hlen : p.length = t.length) (hne : p ≠ []) :
    rmseForward "none" eps0 p t = TensorR.tensor (rmseElems eps0 p t)
  ∧ rmseForward "sum" eps0 p t = TensorR.scalar (rmseElems eps0 p t).sum
  ∧ rmseForward "mean" eps0 p t
      = TensorR.scalar ((rmseElems eps0 p t).sum / (rmseElems eps0 p t).length)
  ∧ (∀ reduction : String, (rmseForward reduction eps0 p t).Nonneg)
  ∧ rmseForward "mean" eps0 p p = TensorR.scalar (Real.sqrt ((eps0 : ℚ) : ℝ)) := by
  refine ⟨rfl, rfl, rfl, ?_, ?_⟩
  · intro reduction
    have hnn := rmseElems_nonneg eps0 p t
    unfold rmseForward
    split_ifs <;>
      simp only [TensorR.Nonneg] <;>
      first
        | exact hnn
        | exact List.sum_nonneg hnn
        | exact div_nonneg (List.sum_nonneg hnn) (Nat.cast_nonneg _)
  · have hlen' : (rmseElems eps0 p p).length = p.length := by
      simp [rmseElems_self]
    have hsum : (rmseElems eps0 p p).sum = p.length • Real.sqrt ((eps0 : ℚ) : ℝ) := by
      rw [rmseElems_self]
      rw [List.sum_eq_card_nsmul _ (Real.sqrt ((eps0 : ℚ) : ℝ)) (by simp)]
      simp
    have hp0 : (p.length : ℝ) ≠ 0 :=
      Nat.cast_ne_zero.mpr (Nat.pos_iff_ne_zero.mp (List.length_pos.mpr hne))
    show TensorR.scalar ((rmseElems eps0 p p).sum / (rmseElems eps0 p p).length) = _
    rw [hsum, hlen', nsmul_eq_mul, mul_comm, mul_div_assoc, div_self hp0, mul_one]

/-- Claim C2 witness: the RMSE loss specification at `p = [1, 3]`,
`t = [0, 3]`. -/
theorem RMSELoss_spec_witness :
    rmseForward "mean" eps0 [1, 3] [1, 3] = TensorR.scalar (Real.sqrt ((eps0 : ℚ) : ℝ)) :=
  (RMSELoss_spec [1, 3] [0, 3] rfl (by decide)).2.2.2.2

/-! ### Claim C9: unrecognized loss kind in `loss_fn` -/

/-- Claim C9 counterexample: on the unrecognized loss kind `"huber"`, `loss_fn`
fails with Python's `UnboundLocalError` for the never-assigned local
`loss_func`, which is not a descriptive configuration error. -/
theorem loss_fn_unknown_kind_counterexample :
    loss_fn [0] [0] "huber" = Except.error (PyError.unboundLocalError "loss_func")
  ∧ (PyError.unboundLocalError "loss_func").isDescriptive = false :=
  ⟨rfl, rfl⟩

/-- Claim C9 (amended): for every loss-kind selector outside
`{mse, rmse, smooth_l1}`, `loss_fn` fails rather than returning a value, but
the failure is an `UnboundLocalError` for the local `loss_func`, not a
descriptive error. -/
theorem loss_fn_unknown_kind (outputs labels : List ℚ) (loss_type : String)
    (h1 : loss_type ≠ "mse") (h2 : loss_type ≠ "rmse") (h3 : loss_type ≠ "smooth_l1") :
    loss_fn outputs labels loss_type
        = Except.error (PyError.unboundLocalError "loss_func")
  ∧ (PyError.unboundLocalError "loss_func").isDescriptive = false := by
  refine ⟨?_, rfl⟩
  simp [loss_fn, h1, h2, h3]

/-- Claim C9 witness: the amended claim at the concrete selector
`"batchmean"`. -/
theorem loss_fn_unknown_kind_witness :
    loss_fn [1] [2] "batchmean" = Except.error (PyError.unboundLocalError "loss_func")
  ∧ (PyError.unboundLocalError "loss_func").isDescriptive = false :=
  loss_fn_unknown_kind [1] [2] "batchmean" (by decide) (by decide) (by decide)

/-! ### Claim C10: unrecognized reduction in `RMSELoss` -/

/-- Claim C10: an `RMSELoss` constructed with a reduction outside
`{none, sum, mean}` does not fail: its forward silently returns the unreduced
elementwise tensor, identical to the `'none'` reduction. -/
theorem rmse_unknown_reduction_spec (reduction : String)
    (h1 : reduction ≠ "none") (h2 : reduction ≠ "sum") (h3 : reduction ≠ "mean")
    (eps : ℚ) (p t : List ℚ) :
    rmseForward reduction eps p t = TensorR.tensor (rmseElems eps p t)
  ∧ rmseForward reduction eps p t = rmseForward "none" eps p t := by
  constructor <;> simp [rmseForward, h1, h2, h3]

/-- Claim C10 witness: the unrecognized reduction `"batchmean"` on concrete
tensors behaves exactly like `'none'`. -/
theorem rmse_unknown_reduction_witness :
    rmseForward "batchmean" eps0 [0] [1] = TensorR.tensor (rmseElems eps0 [0] [1])
  ∧ rmseForward "batchmean" eps0 [0] [1] = rmseForward "none" eps0 [0] [1] :=
  rmse_unknown_reduction_spec "batchmean" (by decide) (by decide) (by decide) eps0 [0] [1]

/-! ### Claim C7: the dataset adapter's target entry -/

/-- Claim C7: at every valid index, an example produced in inference mode
carries no target entry, while in training mode it carries a target vector
whose length equals the number of configured target columns. -/
theorem getItem_target_spec (d : FeedBackDataset) (index : ℕ)
    (hidx : index < d.df.length) :
    (d.train_mode = false → (d.getItem index).target = none)
  ∧ (d.train_mode = true →
      ∃ t, (d.getItem index).target = some t ∧ t.length = d.target_label.length) := by
  constructor
  · intro h
    simp [FeedBackDataset.getItem, h]
  · intro h
    refine ⟨d.targets.getD index [], by simp [FeedBackDataset.getItem, h], ?_⟩
    have hlt : index < d.targets.length := by
      simpa [FeedBackDataset.targets] using hidx
    rw [List.getD_eq_getElem?_getD, List.getElem?_eq_getElem hlt]
    simp [FeedBackDataset.targets]

/-- A concrete one-row training dataset over the six FB3 target columns. -/
def dExample : FeedBackDataset :=
  ⟨[⟨"An example essay.", fun _ => 3⟩], fun _ _ => ⟨[101, 102], [1, 1]⟩, 512,
    ["cohesion", "syntax", "vocabulary", "phraseology", "grammar", "conventions"], true⟩

/-- Claim C7 witness: the dataset-adapter claim at the concrete one-row
training dataset and index `0`, whose target list has the six configured
columns. -/
theorem getItem_target_witness :
    ((dExample.train_mode = false → (dExample.getItem 0).target = none)
  ∧ (dExample.train_mode = true →
      ∃ t, (dExample.getItem 0).target = some t
        ∧ t.length = dExample.target_label.length)) :=
  getItem_target_spec dExample 0 (by simp [dExample])

/-! ### Helper lemmas for `compute_metrics` -/

/-- With nonempty rectangular labels, the column count read off the first row
is the common row length. -/
theorem ncols_eq (L : List (List ℚ)) (c : ℕ) (hne : L ≠ [])
    (hL : ∀ r ∈ L, r.length = c) : (L.head?.getD []).length = c := by
  rcases L with _ | ⟨r, rest⟩
  · exact absurd rfl hne
  · simpa using hL r (by simp)

/-- Zipping a list with itself duplicates each entry. -/
theorem zip_self {α : Type} : ∀ l : List α, l.zip l = l.map fun a => (a, a)
  | [] => rfl
  | a :: l => by simp [zip_self l]

/-- Indexing a `zipWith (+)` inside both bounds adds the indexed entries. -/
theorem getD_zipWith_add : ∀ (r c : List ℚ) (j : ℕ), j < r.length → j < c.length →
    (List.zipWith (fun a b => a + b) r c).getD j 0 = r.getD j 0 + c.getD j 0
  | [], _, _, h, _ => absurd h (by simp)
  | _ :: _, [], _, _, h => absurd h (by simp)
  | _ :: _, _ :: _, 0, _, _ => rfl
  | _ :: r, _ :: c, j + 1, h1, h2 => by
      simpa using getD_zipWith_add r c j (by simpa using h1) (by simpa using h2)

/-- On identical arrays every column's mean squared error is zero. -/
theorem colMse_self (L : List (List ℚ)) (j : ℕ) : colMse L L j = 0 := by
  unfold colMse
  rw [zip_self, List.map_map]
  rw [List.sum_eq_zero, zero_div]
  intro x hx
  obtain ⟨r, -, rfl⟩ := List.mem_map.mp hx
  simp

/-- Summed squared error of column `j` under a per-column constant shift. -/
theorem colMse_shift_sum (c : List ℚ) (j : ℕ) (hj : j < 6) (hc : c.length = 6) :
    ∀ L : List (List ℚ), (∀ r ∈ L, r.length = 6) →
      ((L.zip (L.map fun row => List.zipWith (fun a b => a + b) row c)).map
        (fun rp => (rp.1.getD j 0 - rp.2.getD j 0) ^ 2)).sum
      = L.length * c.getD j 0 ^ 2
  | [], _ => by simp
  | r :: L, h => by
      have hr := h r (by simp)
      have ih := colMse_shift_sum c j hj hc L fun x hx => h x (by simp [hx])
      simp only [List.map_cons, List.zip_cons_cons, List.sum_cons, List.length_cons, ih]
      rw [getD_zipWith_add r c j (by rw [hr]; exact hj) (by rw [hc]; exact hj)]
      push_cast
      ring

/-- Shifting the predictions by a per-column constant makes column `j`'s mean
squared error the square of that column's constant. -/
theorem colMse_shift (L : List (List ℚ)) (c : List ℚ) (hne : L ≠ [])
    (hL : ∀ r ∈ L, r.length = 6) (hc : c.length = 6) (j : ℕ) (hj : j < 6) :
    colMse L (L.map fun row => List.zipWith (fun a b => a + b) row c) j
      = c.getD j 0 ^ 2 := by
  unfold colMse
  rw [colMse_shift_sum c j hj hc L hL]
  rw [mul_comm, mul_div_assoc, div_self, mul_one]
  exact Nat.cast_ne_zero.mpr (Nat.pos_iff_ne_zero.mp (List.length_pos.mpr hne))

/-- With six columns, the column RMSE array is the literal six-entry list. -/
theorem colwiseRmse_six (P L : List (List ℚ)) (h6 : (L.head?.getD []).length = 6) :
    colwiseRmse L P =
      [Real.sqrt ((colMse L P 0 : ℚ) : ℝ), Real.sqrt ((colMse L P 1 : ℚ) : ℝ),
       Real.sqrt ((colMse L P 2 : ℚ) : ℝ), Real.sqrt ((colMse L P 3 : ℚ) : ℝ),
       Real.sqrt ((colMse L P 4 : ℚ) : ℝ), Real.sqrt ((colMse L P 5 : ℚ) : ℝ)] := by
  unfold colwiseRmse
  rw [h6]
  rfl

/-- The mean of a six-entry list of reals. -/
theorem meanR_six (a b c d e f : ℝ) :
    meanR [a, b, c, d, e, f] = (a + b + c + d + e + f) / 6 := by
  simp [meanR]
  ring

/-- On a nonempty rectangular six-column input, `compute_metrics` returns the
seven entries, the aggregate first, each column entry being the square root of
that column's mean squared error. -/
theorem compute_metrics_eq (P L : List (List ℚ)) (hne : L ≠ [])
    (hL : ∀ r ∈ L, r.length = 6) :
    compute_metrics ⟨P, L⟩ =
      some [("mcrmse", meanR (colwiseRmse L P)),
            ("cohesion_rmse", Real.sqrt ((colMse L P 0 : ℚ) : ℝ)),
            ("syntax_rmse", Real.sqrt ((colMse L P 1 : ℚ) : ℝ)),
            ("vocabulary_rmse", Real.sqrt ((colMse L P 2 : ℚ) : ℝ)),
            ("phraseology_rmse", Real.sqrt ((colMse L P 3 : ℚ) : ℝ)),
            ("grammar_rmse", Real.sqrt ((colMse L P 4 : ℚ) : ℝ)),
            ("conventions_rmse", Real.sqrt ((colMse L P 5 : ℚ) : ℝ))] := by
  have h6 := ncols_eq L 6 hne hL
  have hx := colwiseRmse_six P L h6
  simp only [compute_metrics, hx]
  rfl

/-- The `compute_metrics` lookup chain, on an array of fewer than six columns,
stops at the first out-of-range index. -/
theorem bind_chain_short (xs : List ℝ) (mean : ℝ) (h : xs.length < 6) :
    (do
      let c0 ← xs[0]?
      let c1 ← xs[1]?
      let c2 ← xs[2]?
      let c3 ← xs[3]?
      let c4 ← xs[4]?
      let c5 ← xs[5]?
      pure [("mcrmse", mean), ("cohesion_rmse", c0), ("syntax_rmse", c1),
            ("vocabulary_rmse", c2), ("phraseology_rmse", c3), ("grammar_rmse", c4),
            ("conventions_rmse", c5)]) = (none : Option (List (String × ℝ))) := by
  rcases xs with _ | ⟨a, xs⟩
  · rfl
  rcases xs with _ | ⟨b, xs⟩
  · rfl
  rcases xs with _ | ⟨c, xs⟩
  · rfl
  rcases xs with _ | ⟨d, xs⟩
  · rfl
  rcases xs with _ | ⟨e, xs⟩
  · rfl
  rcases xs with _ | ⟨f, xs⟩
  · rfl
  · simp only [List.length_cons] at h
    omega

/-- The `compute_metrics` lookup chain succeeds on an array of at least six
columns. -/
theorem bind_chain_long (xs : List ℝ) (mean : ℝ) (h : 6 ≤ xs.length) :
    ∃ r, (do
      let c0 ← xs[0]?
      let c1 ← xs[1]?
      let c2 ← xs[2]?
      let c3 ← xs[3]?
      let c4 ← xs[4]?
      let c5 ← xs[5]?
      pure [("mcrmse", mean), ("cohesion_rmse", c0), ("syntax_rmse", c1),
            ("vocabulary_rmse", c2), ("phraseology_rmse", c3), ("grammar_rmse", c4),
            ("conventions_rmse", c5)]) = (some r : Option (List (String × ℝ))) := by
  rcases xs with _ | ⟨a, xs⟩
  · simp at h
  rcases xs with _ | ⟨b, xs⟩
  · simp at h
  rcases xs with _ | ⟨c, xs⟩
  · simp at h
  rcases xs with _ | ⟨d, xs⟩
  · simp at h
  rcases xs with _ | ⟨e, xs⟩
  · simp at h
  rcases xs with _ | ⟨f, xs⟩
  · simp at h
  · exact ⟨[("mcrmse", mean), ("cohesion_rmse", a), ("syntax_rmse", b),
      ("vocabulary_rmse", c), ("phraseology_rmse", d), ("grammar_rmse", e),
      ("conventions_rmse", f)], by simp⟩

/-! ### Claim C1: the metric values -/

/-- Claim C1: on predictions and labels of shape `(N, 6)` with `N ≥ 1`,
`compute_metrics` returns the per-column square roots of the column-wise mean
squared errors, with the aggregate equal to the unweighted arithmetic mean of
the six per-column RMSEs; on identical arrays every returned value is `0`, and
under a per-column constant shift `c` each column's RMSE is `|c|` for that
column. -/
theorem compute_metrics_spec (P L : List (List ℚ)) (N : ℕ) (hN : 0 < N)
    (hLn : L.length = N) (hPn : P.length = N)
    (hL : ∀ r ∈ L, r.length = 6) (hP : ∀ r ∈ P, r.length = 6) :
    compute_metrics ⟨P, L⟩ =
      some [("mcrmse",
              (Real.sqrt ((colMse L P 0 : ℚ) : ℝ) + Real.sqrt ((colMse L P 1 : ℚ) : ℝ)
                + Real.sqrt ((colMse L P 2 : ℚ) : ℝ) + Real.sqrt ((colMse L P 3 : ℚ) : ℝ)
                + Real.sqrt ((colMse L P 4 : ℚ) : ℝ) + Real.sqrt ((colMse L P 5 : ℚ) : ℝ)) / 6),
            ("cohesion_rmse", Real.sqrt ((colMse L P 0 : ℚ) : ℝ)),
            ("syntax_rmse", Real.sqrt ((colMse L P 1 : ℚ) : ℝ)),
            ("vocabulary_rmse", Real.sqrt ((colMse L P 2 : ℚ) : ℝ)),
            ("phraseology_rmse", Real.sqrt ((colMse L P 3 : ℚ) : ℝ)),
            ("grammar_rmse", Real.sqrt ((colMse L P 4 : ℚ) : ℝ)),
            ("conventions_rmse", Real.sqrt ((colMse L P 5 : ℚ) : ℝ))]
  ∧ (L = P → compute_metrics ⟨P, L⟩ =
      some [("mcrmse", 0), ("cohesion_rmse", 0), ("syntax_rmse", 0), ("vocabulary_rmse", 0),
            ("phraseology_rmse", 0), ("grammar_rmse", 0), ("conventions_rmse", 0)])
  ∧ (∀ c : List ℚ, c.length = 6 →
      P = L.map (fun row => List.zipWith (fun a b => a + b) row c) →
      ∀ j, j < 6 → Real.sqrt ((colMse L P j : ℚ) : ℝ) = |((c.getD j 0 : ℚ) : ℝ)|) := by
  have hne : L ≠ [] := by
    intro h
    rw [h] at hLn
    simp at hLn
    omega
  have h6 := ncols_eq L 6 hne hL
  refine ⟨?_, ?_, ?_⟩
  · rw [compute_metrics_eq P L hne hL, colwiseRmse_six P L h6, meanR_six]
  · rintro rfl
    rw [compute_metrics_eq L L hne hL, colwiseRmse_six L L h6, meanR_six]
    simp [colMse_self]
  · rintro c hc rfl j hj
    rw [colMse_shift L c hne hL hc j hj]
    push_cast
    exact Real.sqrt_sq_eq_abs _

/-- Claim C1 witness: on the concrete `(1, 6)` input with labels equal to the
predictions, every returned value is `0`. -/
theorem compute_metrics_spec_witness :
    compute_metrics ⟨[[1, 2, 3, 4, 5, 6]], [[1, 2, 3, 4, 5, 6]]⟩ =
      some [("mcrmse", 0), ("cohesion_rmse", 0), ("syntax_rmse", 0), ("vocabulary_rmse", 0),
            ("phraseology_rmse", 0), ("grammar_rmse", 0), ("conventions_rmse", 0)] :=
  (compute_metrics_spec [[1, 2, 3, 4, 5, 6]] [[1, 2, 3, 4, 5, 6]] 1 (by decide) rfl rfl
    (by simp) (by simp)).2.1 rfl

/-! ### Claim C6: the shape and order of the returned mapping -/

/-- Claim C6 counterexample: on a concrete `(1, 6)` input the returned mapping
lists the aggregate `"mcrmse"` first, not after the six per-column entries as
the claim states. -/
theorem compute_metrics_order_counterexample :
    ((compute_metrics ⟨[[0, 0, 0, 0, 0, 0]], [[0, 0, 0, 0, 0, 0]]⟩).map fun r => r.map Prod.fst)
        = some ["mcrmse", "cohesion_rmse", "syntax_rmse", "vocabulary_rmse",
                "phraseology_rmse", "grammar_rmse", "conventions_rmse"]
  ∧ (["mcrmse", "cohesion_rmse", "syntax_rmse", "vocabulary_rmse",
      "phraseology_rmse", "grammar_rmse", "conventions_rmse"]
      ≠ ["cohesion_rmse", "syntax_rmse", "vocabulary_rmse",
         "phraseology_rmse", "grammar_rmse", "conventions_rmse", "mcrmse"]) := by
  constructor
  · rw [compute_metrics_eq [[0, 0, 0, 0, 0, 0]] [[0, 0, 0, 0, 0, 0]] (by simp) (by simp)]
    rfl
  · decide

/-- Claim C6 (amended): for every valid `(N, 6)` input, `compute_metrics`
returns a mapping with exactly seven named numeric entries, with the aggregate
`"mcrmse"` first, followed by the six per-column entries in the fixed order
cohesion, syntax, vocabulary, phraseology, grammar, conventions. -/
theorem compute_metrics_keys (P L : List (List ℚ)) (hne : L ≠ [])
    (hL : ∀ r ∈ L, r.length = 6) :
    ((compute_metrics ⟨P, L⟩).map fun r => r.map Prod.fst)
      = some ["mcrmse", "cohesion_rmse", "syntax_rmse", "vocabulary_rmse",
              "phraseology_rmse", "grammar_rmse", "conventions_rmse"] := by
  rw [compute_metrics_eq P L hne hL]
  rfl

/-- Claim C6 witness: the amended key order at a concrete `(1, 6)` input. -/
theorem compute_metrics_keys_witness :
    ((compute_metrics ⟨[[1, 1, 1, 1, 1, 1]], [[2, 2, 2, 2, 2, 2]]⟩).map fun r => r.map Prod.fst)
      = some ["mcrmse", "cohesion_rmse", "syntax_rmse", "vocabulary_rmse",
              "phraseology_rmse", "grammar_rmse", "conventions_rmse"] :=
  compute_metrics_keys [[1, 1, 1, 1, 1, 1]] [[2, 2, 2, 2, 2, 2]] (by simp) (by simp)

/-! ### Claim C8: the six-column precondition -/

/-- Claim C8: with fewer than six columns, `compute_metrics` fails with an
index error (returns nothing) rather than a result; with at least six columns
it returns normally. -/
theorem compute_metrics_column_guard (P L : List (List ℚ)) (c : ℕ) (hne : L ≠ [])
    (hL : ∀ r ∈ L, r.length = c) :
    (c < 6 → compute_metrics ⟨P, L⟩ = none)
  ∧ (6 ≤ c → ∃ r, compute_metrics ⟨P, L⟩ = some r) := by
  have hc : (colwiseRmse L P).length = c := by
    simp [colwiseRmse, ncols_eq L c hne hL]
  constructor
  · intro h
    exact bind_chain_short (colwiseRmse L P) (meanR (colwiseRmse L P)) (by rw [hc]; exact h)
  · intro h
    exact bind_chain_long (colwiseRmse L P) (meanR (colwiseRmse L P)) (by rw [hc]; exact h)

/-- Claim C8 witness: a concrete three-column input makes `compute_metrics`
fail, and a concrete six-column input returns normally. -/
theorem compute_metrics_column_guard_witness :
    compute_metrics ⟨[[1, 2, 3]], [[4, 5, 6]]⟩ = none :=
  (compute_metrics_column_guard [[1, 2, 3]] [[4, 5, 6]] 3 (by simp) (by simp)).1 (by omega)

/-! ### Helper lemmas for the substring test -/

/-- A match at the start survives appending on the right. -/
theorem listStarts_append : ∀ (nd l r : List Char), listStarts nd l = true →
    listStarts nd (l ++ r) = true
  | [], _, _, _ => rfl
  | _ :: _, [], _, h => absurd h (by simp [listStarts])
  | a :: as, b :: bs, r, h => by
      simp only [List.cons_append, listStarts, Bool.and_eq_true] at h ⊢
      exact ⟨h.1, listStarts_append as bs r h.2⟩

/-- A match at the start is in particular a substring match. -/
theorem listContains_of_starts : ∀ (nd l : List Char), listStarts nd l = true →
    listContains nd l = true
  | nd, [], h => by simpa [listContains] using h
  | nd, b :: bs, h => by simp [listContains, h]

/-- A needle matching the start of a path occurs in every extension of the
path. -/
theorem strContains_append_right (needle pre s : String)
    (h : listStarts needle.toList pre.toList = true) :
    strContains needle (pre ++ s) = true := by
  unfold strContains
  have he : (pre ++ s).toList = pre.toList ++ s.toList := by
    simp [String.toList]
  rw [he]
  exact listContains_of_starts _ _ (listStarts_append _ _ _ h)

/-- `"model"` occurs in every name under the `model.embeddings.` path. -/
theorem contains_model_embpre (s : String) :
    strContains "model" ("model.embeddings." ++ s) = true :=
  strContains_append_right _ _ _ (by decide)

/-- `"model.embeddings"` occurs in every name under the `model.embeddings.`
path. -/
theorem contains_emb_emb (s : String) :
    strContains "model.embeddings" ("model.embeddings." ++ s) = true :=
  strContains_append_right _ _ _ (by decide)

/-- `"model"` occurs in every name directly under the `model.` path. -/
theorem contains_model_model (s : String) :
    strContains "model" ("model." ++ s) = true :=
  strContains_append_right _ _ _ (by decide)

/-- `"model"` occurs in every name under a `model.encoder.layer.<i>.` path. -/
theorem contains_model_layer (t s : String) :
    strContains "model" (("model.encoder.layer." ++ t) ++ s) = true := by
  rw [String.append_assoc]
  exact strContains_append_right _ _ _ (by decide)

/-- `"model.encoder.layer"` occurs in every name under a
`model.encoder.layer.<i>.` path. -/
theorem contains_enc_layer (t s : String) :
    strContains "model.encoder.layer" (("model.encoder.layer." ++ t) ++ s) = true := by
  rw [String.append_assoc]
  exact strContains_append_right _ _ _ (by decide)

/-! ### Helper lemmas for the parameter grouping -/

/-- Membership in a prefixed parameter list. -/
theorem mem_withPre {pre : String} {ps : List (String × Param)} {np : String × Param}
    (h : np ∈ withPre pre ps) : ∃ q ∈ ps, np = (pre ++ q.1, q.2) := by
  obtain ⟨q, hq, rfl⟩ := List.mem_map.mp h
  exact ⟨q, hq, rfl⟩

/-- Every name produced by `layersNamed` lies under a
`model.encoder.layer.<i>.` path. -/
theorem mem_layersNamed {np : String × Param} :
    ∀ {i : ℕ} {ls : List (List (String × Param))}, np ∈ layersNamed i ls →
      ∃ t s, np.1 = ("model.encoder.layer." ++ t) ++ s := by
  intro i ls
  induction ls generalizing i with
  | nil => intro h; exact absurd h (by simp [layersNamed])
  | cons ps rest ih =>
      intro h
      simp only [layersNamed, List.mem_append] at h
      rcases h with h | h
      · obtain ⟨q, hq, rfl⟩ := List.mem_map.mp h
        exact ⟨toString i ++ ".", q.1, rfl⟩
      · exact ih h

/-- Prefixing parameter names does not change the parameters. -/
theorem withPre_map_snd (pre : String) (ps : List (String × Param)) :
    (withPre pre ps).map Prod.snd = ps.map Prod.snd := by
  simp [withPre, List.map_map, Function.comp]

/-- The parameters listed by `layersNamed` are the layers' parameters in
order. -/
theorem layersNamed_map_snd : ∀ (i : ℕ) (ls : List (List (String × Param))),
    (layersNamed i ls).map Prod.snd = sndAll ls
  | _, [] => rfl
  | i, ps :: rest => by
      simp only [layersNamed, List.map_append, sndAll, layersNamed_map_snd (i + 1) rest,
        withPre_map_snd]

/-- `sndAll` distributes over append. -/
theorem sndAll_append : ∀ l1 l2 : List (List (String × Param)),
    sndAll (l1 ++ l2) = sndAll l1 ++ sndAll l2
  | [], _ => rfl
  | a :: l1, l2 => by simp [sndAll, sndAll_append l1 l2]

/-- Reversing the block list permutes the concatenated parameters. -/
theorem sndAll_reverse_perm : ∀ ls : List (List (String × Param)),
    List.Perm (sndAll ls.reverse) (sndAll ls)
  | [] => List.Perm.refl _
  | a :: ls => by
      rw [List.reverse_cons, sndAll_append]
      refine ((sndAll_reverse_perm ls).append (List.Perm.refl _)).trans ?_
      rw [show sndAll [a] = a.map Prod.snd ++ sndAll [] from rfl]
      rw [show sndAll ([] : List (List (String × Param))) = [] from rfl, List.append_nil]
      exact List.perm_append_comm

/-- The parameters collected by the layer loop are exactly the traversed
blocks' parameters. -/
theorem allParams_layerLoop (wd dec : ℚ) : ∀ (lr : ℚ) (ls : List (List (String × Param))),
    List.Perm (allParams (layerLoop wd dec lr ls)) (sndAll ls)
  | _, [] => List.Perm.refl _
  | lr, l :: ls => by
      show List.Perm
        ((l.filter fun np => !isNoDecayName np.1).map Prod.snd
          ++ ((l.filter fun np => isNoDecayName np.1).map Prod.snd
            ++ allParams (layerLoop wd dec (lr * dec) ls)))
        (l.map Prod.snd ++ sndAll ls)
      rw [← List.append_assoc, ← List.map_append]
      refine List.Perm.append (List.Perm.map _ ?_) (allParams_layerLoop wd dec (lr * dec) ls)
      simpa using List.filter_append_perm (fun np => !isNoDecayName np.1) l

/-- Under the naming hypotheses, the head filter keeps exactly the head
parameters: every backbone name contains `"model"`, and by hypothesis no head
name does. -/
theorem filter_head_eq (m : HFModel)
    (hHead : ∀ np ∈ m.headParams, strContains "model" np.1 = false) :
    (namedParameters m).filter (fun np => !strContains "model" np.1) = m.headParams := by
  have h1 : m.headParams.filter (fun np => !strContains "model" np.1) = m.headParams :=
    List.filter_eq_self.mpr fun np hnp => by
      rw [hHead np hnp]
      rfl
  have h2 : (withPre "model.embeddings." m.embParams).filter
      (fun np => !strContains "model" np.1) = [] :=
    List.filter_eq_nil_iff.mpr fun np hnp => by
      obtain ⟨q, hq, rfl⟩ := mem_withPre hnp
      simp [contains_model_embpre]
  have h3 : (layersNamed 0 m.layerParams).filter
      (fun np => !strContains "model" np.1) = [] :=
    List.filter_eq_nil_iff.mpr fun np hnp => by
      obtain ⟨t, s, he⟩ := mem_layersNamed hnp
      simp [he, contains_model_layer]
  have h4 : (withPre "model." m.extraParams).filter
      (fun np => !strContains "model" np.1) = [] :=
    List.filter_eq_nil_iff.mpr fun np hnp => by
      obtain ⟨q, hq, rfl⟩ := mem_withPre hnp
      simp [contains_model_model]
  unfold namedParameters
  rw [List.filter_append, List.filter_append, List.filter_append, h1, h2, h3, h4]
  simp

/-- Under the naming hypotheses, the extra-parameter filter keeps exactly the
prefixed extra parameters: embedding and layer names are excluded by their
paths, head names lack `"model"`, and by hypothesis the extra names avoid the
two excluded paths. -/
theorem filter_extra_eq (m : HFModel)
    (hHead : ∀ np ∈ m.headParams, strContains "model" np.1 = false)
    (hExtra : ∀ np ∈ m.extraParams,
      strContains "model.embeddings" ("model." ++ np.1) = false
        ∧ strContains "model.encoder.layer" ("model." ++ np.1) = false) :
    (namedParameters m).filter extraPred = withPre "model." m.extraParams := by
  have h1 : m.headParams.filter extraPred = [] :=
    List.filter_eq_nil_iff.mpr fun np hnp => by
      simp [extraPred, hHead np hnp]
  have h2 : (withPre "model.embeddings." m.embParams).filter extraPred = [] :=
    List.filter_eq_nil_iff.mpr fun np hnp => by
      obtain ⟨q, hq, rfl⟩ := mem_withPre hnp
      simp [extraPred, contains_emb_emb]
  have h3 : (layersNamed 0 m.layerParams).filter extraPred = [] :=
    List.filter_eq_nil_iff.mpr fun np hnp => by
      obtain ⟨t, s, he⟩ := mem_layersNamed hnp
      simp [extraPred, he, contains_enc_layer]
  have h4 : (withPre "model." m.extraParams).filter extraPred
      = withPre "model." m.extraParams :=
    List.filter_eq_self.mpr fun np hnp => by
      obtain ⟨q, hq, rfl⟩ := mem_withPre hnp
      simp [extraPred, contains_model_model, (hExtra q hq).1, (hExtra q hq).2]
  unfold namedParameters
  rw [List.filter_append, List.filter_append, List.filter_append, h1, h2, h3, h4]
  simp

/-! ### Claim C3: the groups partition the model parameters -/

/-- Claim C3: under the backbone naming conventions (head parameter names do
not contain `"model"`; the extra backbone names do not fall under the
embedding or encoder-layer paths), the parameter groups produced by
`get_optimizer_grouped_parameters` form an exact partition of
`model.named_parameters()`: the concatenation of all group parameter lists is
a permutation of the model's parameter list, and in particular it is
duplicate-free whenever the model's parameter list is. -/
theorem grouped_parameters_partition (m : HFModel) (llr dlr wd dec : ℚ)
    (hHead : ∀ np ∈ m.headParams, strContains "model" np.1 = false)
    (hExtra : ∀ np ∈ m.extraParams,
      strContains "model.embeddings" ("model." ++ np.1) = false
        ∧ strContains "model.encoder.layer" ("model." ++ np.1) = false) :
    List.Perm (allParams (get_optimizer_grouped_parameters m llr dlr wd dec))
        ((namedParameters m).map Prod.snd)
  ∧ (((namedParameters m).map Prod.snd).Nodup →
      (allParams (get_optimizer_grouped_parameters m llr dlr wd dec)).Nodup) := by
  have hALL : allParams (get_optimizer_grouped_parameters m llr dlr wd dec)
      = ((namedParameters m).filter fun np => !strContains "model" np.1).map Prod.snd
        ++ ((((namedParameters m).filter extraPred).filter
              fun np => !isNoDecayName np.1).map Prod.snd
        ++ ((((namedParameters m).filter extraPred).filter
              fun np => isNoDecayName np.1).map Prod.snd
        ++ allParams (layerLoop wd dec llr ((m.embParams :: m.layerParams).reverse)))) := rfl
  have hperm : List.Perm (allParams (get_optimizer_grouped_parameters m llr dlr wd dec))
      ((namedParameters m).map Prod.snd) := by
    rw [hALL, filter_head_eq m hHead, filter_extra_eq m hHead hExtra]
    have hloop : List.Perm
        (allParams (layerLoop wd dec llr ((m.embParams :: m.layerParams).reverse)))
        (m.embParams.map Prod.snd ++ sndAll m.layerParams) :=
      (allParams_layerLoop wd dec llr _).trans (sndAll_reverse_perm _)
    have hfilters : List.Perm
        (((withPre "model." m.extraParams).filter fun np => !isNoDecayName np.1).map Prod.snd
          ++ ((withPre "model." m.extraParams).filter fun np => isNoDecayName np.1).map Prod.snd)
        (m.extraParams.map Prod.snd) := by
      rw [← List.map_append, ← withPre_map_snd "model." m.extraParams]
      refine List.Perm.map _ ?_
      simpa using List.filter_append_perm (fun np => !isNoDecayName np.1)
        (withPre "model." m.extraParams)
    have hmid : List.Perm
        (m.headParams.map Prod.snd
          ++ (((withPre "model." m.extraParams).filter
                fun np => !isNoDecayName np.1).map Prod.snd
          ++ (((withPre "model." m.extraParams).filter
                fun np => isNoDecayName np.1).map Prod.snd
          ++ allParams (layerLoop wd dec llr ((m.embParams :: m.layerParams).reverse)))))
        (m.headParams.map Prod.snd
          ++ (m.extraParams.map Prod.snd
            ++ (m.embParams.map Prod.snd ++ sndAll m.layerParams))) := by
      refine List.Perm.append_left _ ?_
      rw [← List.append_assoc]
      exact List.Perm.append hfilters hloop
    refine hmid.trans ?_
    have hnamed : (namedParameters m).map Prod.snd
        = m.headParams.map Prod.snd
          ++ (m.embParams.map Prod.snd ++ (sndAll m.layerParams
            ++ m.extraParams.map Prod.snd)) := by
      unfold namedParameters
      rw [List.map_append, List.map_append, List.map_append, withPre_map_snd,
        withPre_map_snd, layersNamed_map_snd, List.append_assoc, List.append_assoc]
    rw [hnamed]
    refine List.Perm.append_left _ ?_
    refine List.perm_append_comm.trans ?_
    rw [List.append_assoc]
  exact ⟨hperm, fun h => hperm.nodup_iff.mpr h⟩

/-- A concrete two-layer backbone model with a regression head, following the
DeBERTa naming conventions. -/
def mExample : HFModel :=
  ⟨[("fc.weight", 0), ("fc.bias", 1)],
   [("encoder.rel_embeddings.weight", 2), ("encoder.LayerNorm.bias", 3)],
   [("word_embeddings.weight", 4), ("LayerNorm.weight", 5)],
   [[("attention.query.weight", 6), ("attention.query.bias", 7)],
    [("output.dense.weight", 8), ("output.LayerNorm.weight", 9)]]⟩

/-- Claim C3 witness: the exact-partition conclusion at the concrete model. -/
theorem grouped_parameters_partition_witness :
    List.Perm (allParams (get_optimizer_grouped_parameters mExample 1 2 (1 / 100) (9 / 10)))
        ((namedParameters mExample).map Prod.snd) :=
  (grouped_parameters_partition mExample 1 2 (1 / 100) (9 / 10)
    (by decide) (by decide)).1

/-! ### Claim C4: layerwise learning-rate decay -/

/-- The learning rates emitted by the layer loop: two copies (decay and
no-decay group) per block, the rate multiplying by the decay factor between
blocks. -/
def lrSeq (dec : ℚ) : ℚ → ℕ → List ℚ
  | _, 0 => []
  | lr, n + 1 => lr :: lr :: lrSeq dec (lr * dec) n

/-- The layer loop's groups carry exactly the rates of `lrSeq`. -/
theorem layerLoop_map_lr (wd dec : ℚ) : ∀ (lr : ℚ) (ls : List (List (String × Param))),
    (layerLoop wd dec lr ls).map ParamGroup.lr = lrSeq dec lr ls.length
  | _, [] => rfl
  | lr, l :: ls => by
      show lr :: lr :: (layerLoop wd dec (lr * dec) ls).map ParamGroup.lr
        = lr :: lr :: lrSeq dec (lr * dec) ls.length
      rw [layerLoop_map_lr wd dec (lr * dec) ls]

/-- The `k`-th block's pair of rates is the starting rate times the decay
factor to the `k`-th power. -/
theorem lrSeq_getElem? (dec : ℚ) : ∀ (n : ℕ) (lr : ℚ) (k : ℕ), k < n →
    (lrSeq dec lr n)[2 * k]? = some (lr * dec ^ k)
  ∧ (lrSeq dec lr n)[2 * k + 1]? = some (lr * dec ^ k)
  | 0, _, k, h => absurd h (Nat.not_lt_zero k)
  | n + 1, lr, 0, _ => by simp [lrSeq]
  | n + 1, lr, k + 1, h => by
      have ih := lrSeq_getElem? dec n (lr * dec) k (Nat.lt_of_succ_lt_succ h)
      have e1 : 2 * (k + 1) = 2 * k + 1 + 1 := by ring
      have e2 : 2 * (k + 1) + 1 = 2 * k + 1 + 1 + 1 := by ring
      constructor
      · rw [e1]
        show (lr :: lr :: lrSeq dec (lr * dec) n)[2 * k + 1 + 1]? = _
        rw [List.getElem?_cons_succ, List.getElem?_cons_succ, ih.1]
        exact congrArg some (by ring)
      · rw [e2]
        show (lr :: lr :: lrSeq dec (lr * dec) n)[2 * k + 1 + 1 + 1]? = _
        rw [List.getElem?_cons_succ, List.getElem?_cons_succ, ih.2]
        exact congrArg some (by ring)

/-- Claim C4: the layerwise grouping traverses the embedding block and the
encoder layers in reversed (top-down) order; the topmost block's pair of
groups carries the base layerwise rate (`k = 0`), block `k` of the traversal
carries `base * decay ^ k` in both of its groups, and for `0 ≤ decay ≤ 1` and
a nonnegative base rate the per-block rate is non-increasing from the top
layer down to the embedding block. -/
theorem layerwise_lr_decay_spec (m : HFModel) (llr dlr wd dec : ℚ)
    (h0 : 0 ≤ dec) (h1 : dec ≤ 1) (hlr : 0 ≤ llr) :
    (get_optimizer_grouped_parameters m llr dlr wd dec).drop 3
        = layerLoop wd dec llr ((m.embParams :: m.layerParams).reverse)
  ∧ (∀ k, k < m.layerParams.length + 1 →
      (((get_optimizer_grouped_parameters m llr dlr wd dec).drop 3).map ParamGroup.lr)[2 * k]?
          = some (llr * dec ^ k)
      ∧ (((get_optimizer_grouped_parameters m llr dlr wd dec).drop 3).map
            ParamGroup.lr)[2 * k + 1]?
          = some (llr * dec ^ k))
  ∧ (∀ j k : ℕ, j ≤ k → llr * dec ^ k ≤ llr * dec ^ j) := by
  have hdrop : (get_optimizer_grouped_parameters m llr dlr wd dec).drop 3
      = layerLoop wd dec llr ((m.embParams :: m.layerParams).reverse) := rfl
  refine ⟨hdrop, ?_, ?_⟩
  · intro k hk
    have hlen : ((m.embParams :: m.layerParams).reverse).length
        = m.layerParams.length + 1 := by simp
    rw [hdrop, layerLoop_map_lr, hlen]
    exact lrSeq_getElem? dec (m.layerParams.length + 1) llr k hk
  · intro j k hjk
    exact mul_le_mul_of_nonneg_left (pow_le_pow_of_le_one h0 h1 hjk) hlr

/-- Claim C4 witness: the reversed traversal and decayed rates at the concrete
two-layer model with decay factor `9/10`. -/
theorem layerwise_lr_decay_witness :
    (get_optimizer_grouped_parameters mExample 1 2 (1 / 100) (9 / 10)).drop 3
        = layerLoop (1 / 100) (9 / 10) 1 ((mExample.embParams :: mExample.layerParams).reverse) :=
  (layerwise_lr_decay_spec mExample 1 2 (1 / 100) (9 / 10)
    (by norm_num) (by norm_num) (by norm_num)).1

end FeedBackPrize
